import Mathlib

/-!
# Verification of the freeform canvas engine

A shallow embedding, in Lean 4, of the canvas engine implemented in
`src/components/CanvasEditor.tsx`: the shape model, hit-testing, the
undo/redo history, the eraser cascade, zoom clamping, the debounced
persistence bridge, and the JSON serialization layer.  Numeric scene
coordinates are modelled as `Int` (the source stores plain JS numbers);
the zoom factor, which is genuinely fractional (steps of 0.1), is
modelled as `ℚ`.
-/

namespace CanvasEditor

/-! ## Shape model

Mirrors the `Shape` tagged union of `CanvasEditor.tsx` (lines 55–127):
a `BaseShape` of `id`, `x`, `y`, `stroke`, `strokeWidth`, optional
`fill`, extended by a per-kind payload. -/

/-- Per-kind payload of a shape, one constructor per member of the
`Shape` union in the source. -/
inductive ShapeData where
  | rectangle (width height : Int)
  | circle (radius : Int)
  | line (points : List Int)
  | freehand (points : List Int)
  | text (text : String) (fontSize : Int)
  | sticky (width height : Int) (text : String) (colorIndex : Int)
  | noteEmbed (width height : Int) (noteId noteTitle notePreview : String)
  | mindmapNode (width height : Int) (text : String)
      (parentId : Option String) (isRoot collapsed : Bool)
  | connector (fromId toId : String) (points : List Int)
  deriving DecidableEq, Repr

/-- A shape: the `BaseShape` fields plus the per-kind payload. -/
structure Shape where
  id : String
  x : Int
  y : Int
  stroke : String
  strokeWidth : Int
  fill : Option String := none
  data : ShapeData
  deriving DecidableEq, Repr

/-- A scene: the ordered shape array (insertion order = draw order). -/
abbrev Scene := List Shape

/-- A point in scene coordinates. -/
structure Point where
  x : Int
  y : Int
  deriving DecidableEq, Repr

/-! ## Hit-testing (`findShapeAtPosition`, lines 523–584) -/

/-- The consecutive `(x, y)` pairs of a flat points array, as read by the
`for (j = 0; j < points.length; j += 2)` loops of the source. -/
def toPairs : List Int → List (Int × Int)
  | x :: y :: rest => (x, y) :: toPairs rest
  | _ => []

/-- The padded (±10) bounding-box test used for `freehand`, `line` and
`connector` shapes: the box over all points, grown by 10 units.  An empty
points list yields an empty box (in the source the min starts at
`Infinity`), so nothing is contained. -/
def paddedBoxContains (points : List Int) (p : Point) : Bool :=
  match toPairs points with
  | [] => false
  | q :: qs =>
      let minX := qs.foldl (fun a r => min a r.1) q.1
      let maxX := qs.foldl (fun a r => max a r.1) q.1
      let minY := qs.foldl (fun a r => min a r.2) q.2
      let maxY := qs.foldl (fun a r => max a r.2) q.2
      decide (minX - 10 ≤ p.x ∧ p.x ≤ maxX + 10 ∧ minY - 10 ≤ p.y ∧ p.y ≤ maxY + 10)

/-- Per-kind containment test: the body of the `switch` inside
`findShapeAtPosition`.  The circle case `Math.sqrt(dx²+dy²) <= radius`
is rendered over integers as `0 ≤ radius ∧ dx²+dy² ≤ radius²` (the exact
condition, since `sqrt` is nonnegative).  The text case multiplies the
source's inequalities through by 10 so that the `0.6` font-width factor
stays integral (`textWidth = text.length * fontSize * 0.6`). -/
def containsPoint (s : Shape) (p : Point) : Bool :=
  match s.data with
  | .rectangle width height =>
      decide (s.x ≤ p.x ∧ p.x ≤ s.x + width ∧ s.y ≤ p.y ∧ p.y ≤ s.y + height)
  | .sticky width height _ _ =>
      decide (s.x ≤ p.x ∧ p.x ≤ s.x + width ∧ s.y ≤ p.y ∧ p.y ≤ s.y + height)
  | .noteEmbed width height _ _ _ =>
      decide (s.x ≤ p.x ∧ p.x ≤ s.x + width ∧ s.y ≤ p.y ∧ p.y ≤ s.y + height)
  | .mindmapNode width height _ _ _ _ =>
      decide (s.x ≤ p.x ∧ p.x ≤ s.x + width ∧ s.y ≤ p.y ∧ p.y ≤ s.y + height)
  | .circle radius =>
      let dx := p.x - s.x
      let dy := p.y - s.y
      decide (0 ≤ radius ∧ dx * dx + dy * dy ≤ radius * radius)
  | .freehand points => paddedBoxContains points p
  | .line points => paddedBoxContains points p
  | .connector _ _ points => paddedBoxContains points p
  | .text text fontSize =>
      decide (s.x ≤ p.x ∧ 10 * p.x ≤ 10 * s.x + 6 * (text.length : Int) * fontSize ∧
        s.y - fontSize ≤ p.y ∧ p.y ≤ s.y)

/-- `findShapeAtPosition`: iterate the scene from the last element down to
the first and return the first shape containing `p` (so a later element
shadows an earlier one). -/
def findShapeAtPosition : Scene → Point → Option Shape
  | [], _ => none
  | s :: rest, p =>
      match findShapeAtPosition rest p with
      | some t => some t
      | none => if containsPoint s p then some s else none

/-! ## Editor state and history (lines 331–466)

`EditorState` collects the pieces of React state the history claims are
about: `shapes` (the current scene), `history`/`historyIndex` (the
snapshot stack), `selectedId` and `mindMapRootId`.  Initially
`history = [[]]`, `historyIndex = 0`. -/

structure EditorState where
  shapes : Scene
  history : List Scene
  historyIndex : Nat
  selectedId : Option String
  mindMapRootId : Option String
  deriving DecidableEq, Repr

/-- The initial React state: empty scene, `history = [[]]`, index 0. -/
def initialState : EditorState :=
  { shapes := [], history := [[]], historyIndex := 0,
    selectedId := none, mindMapRootId := none }

/-- `addToHistory(newShapes)`: truncate the history after the current
index, append the snapshot, and advance the index — composed here with
the caller's preceding `setShapes(newShapes)`, which every call site of
`addToHistory` performs. -/
def commit (st : EditorState) (newShapes : Scene) : EditorState :=
  { st with
    shapes := newShapes,
    history := st.history.take (st.historyIndex + 1) ++ [newShapes],
    historyIndex := st.historyIndex + 1 }

/-- `undo()`: if the index is positive, decrement it and restore the
snapshot stored there; otherwise do nothing. -/
def undo (st : EditorState) : EditorState :=
  if st.historyIndex > 0 then
    let newIndex := st.historyIndex - 1
    { st with historyIndex := newIndex, shapes := st.history.getD newIndex [] }
  else st

/-- `redo()`: if the index is below `history.length - 1`, increment it
and restore the snapshot stored there; otherwise do nothing. -/
def redo (st : EditorState) : EditorState :=
  if st.historyIndex < st.history.length - 1 then
    let newIndex := st.historyIndex + 1
    { st with historyIndex := newIndex, shapes := st.history.getD newIndex [] }
  else st

/-- `n` successive `redo()` calls. -/
def redoN : Nat → EditorState → EditorState
  | 0, st => st
  | n + 1, st => redoN n (redo st)

/-- `clearCanvas()`: set the scene to the empty array, push it through
`addToHistory`, and clear the selection and the mind-map root
reference. -/
def clearCanvas (st : EditorState) : EditorState :=
  { commit st [] with selectedId := none, mindMapRootId := none }

/-- Whether `s` is a connector referencing `hitId` as `fromId` or
`toId`. -/
def connectorRefs (s : Shape) (hitId : String) : Bool :=
  match s.data with
  | .connector fromId toId _ => decide (fromId = hitId ∨ toId = hitId)
  | _ => false

/-- The predicate of the eraser's `shapes.filter`: drop the hit shape
itself and every connector referencing it; keep everything else. -/
def eraseKeep (hitId : String) (s : Shape) : Bool :=
  if s.id = hitId then false
  else if connectorRefs s hitId then false
  else true

/-- The eraser branch of `handleMouseDown` (lines 824–840): hit-test at
`pos`; on a hit, filter the scene and commit; on a miss, do nothing. -/
def eraseHit (st : EditorState) (pos : Point) : EditorState :=
  match findShapeAtPosition st.shapes pos with
  | none => st
  | some shape => commit st (st.shapes.filter (eraseKeep shape.id))

/-! ## Rectangle drag (lines 964–969) and pointer-up (lines 1001–1008) -/

/-- The `rectangle` case of `handleMouseMove`: the live width/height are
the raw pointer deltas from the anchor, with no normalization of
negative values. -/
def resizeRectangle (cur : Shape) (startPoint pos : Point) : Shape :=
  match cur.data with
  | .rectangle _ _ =>
      { cur with data := .rectangle (pos.x - startPoint.x) (pos.y - startPoint.y) }
  | _ => cur

/-- `handleMouseUp`: when a current shape exists and drawing is active,
append it (unchanged) to the scene and commit. -/
def handleMouseUp (st : EditorState) (currentShape : Option Shape)
    (isDrawing : Bool) : EditorState :=
  match currentShape, isDrawing with
  | some c, true => commit st (st.shapes ++ [c])
  | _, _ => st

/-! ## Zoom (lines 468–497, wheel at 1012–1026, pinch at 1157–1194)

The zoom factor is a rational; `MIN_ZOOM = 0.1`, `MAX_ZOOM = 5`,
`ZOOM_STEP = 0.1`. -/

def MIN_ZOOM : ℚ := 1 / 10

def MAX_ZOOM : ℚ := 5

def ZOOM_STEP : ℚ := 1 / 10

/-- One zoom operation, as offered by the editor: the fixed-step
buttons/shortcuts, reset, wheel zoom with an arbitrary delta, and the
pinch gesture with an arbitrary scale factor. -/
inductive ZoomOp where
  | zoomIn
  | zoomOut
  | resetView
  | zoomAtPoint (delta : ℚ)
  | pinch (scaleFactor : ℚ)

/-- Apply one zoom operation to the current zoom factor, exactly as the
source computes the new factor: `zoomIn` is `min(MAX, z + STEP)`,
`zoomOut` is `max(MIN, z - STEP)`, `resetView` sets 1, `zoomAtPoint`
clamps `z + delta` to both bounds, and the pinch handler clamps
`z * scaleFactor` to both bounds. -/
def applyZoom (op : ZoomOp) (z : ℚ) : ℚ :=
  match op with
  | .zoomIn => min MAX_ZOOM (z + ZOOM_STEP)
  | .zoomOut => max MIN_ZOOM (z - ZOOM_STEP)
  | .resetView => 1
  | .zoomAtPoint delta => max MIN_ZOOM (min MAX_ZOOM (z + delta))
  | .pinch scaleFactor => max MIN_ZOOM (min MAX_ZOOM (z * scaleFactor))

/-- The zoom factor after a sequence of operations, starting from the
initial zoom of 1. -/
def zoomAfter (ops : List ZoomOp) : ℚ :=
  ops.foldl (fun z op => applyZoom op z) 1

/-! ## JSON values

The persistence bridge stores the document as
`JSON.stringify({shapes: scene})` and reads it back with `JSON.parse`.
`Json` models the JavaScript values involved; the printer below models
`JSON.stringify` (which emits no whitespace) and the parser models
`JSON.parse` on the relevant grammar.  Numbers are integers (the
embedding's rendering of JS numbers); string escaping covers the quote
and backslash escapes (the injective core of JSON string escaping —
control-character escapes, which the printer never needs for the claims
at hand, are elided). -/

inductive Json where
  | null : Json
  | bool (b : Bool) : Json
  | num (n : Int) : Json
  | str (s : String) : Json
  | arr (elems : List Json) : Json
  | obj (fields : List (String × Json)) : Json

/-- The `\x7b` character, kept out of character literals. -/
def openBrace : Char := Char.ofNat 123

/-- The `\x7d` character, kept out of character literals. -/
def closeBrace : Char := Char.ofNat 125

/-- JSON string escaping of one character: quote and backslash get a
backslash prefix, everything else passes through. -/
def escapeChar (c : Char) : List Char :=
  if c = '"' ∨ c = '\\' then ['\\', c] else [c]

def escapeList : List Char → List Char
  | [] => []
  | c :: rest => escapeChar c ++ escapeList rest

/-- A JSON string literal: quote, escaped characters, quote. -/
def printString (s : String) : List Char :=
  '"' :: (escapeList s.data ++ ['"'])

/-- The decimal digit character for `d < 10`. -/
def digitChar (d : Nat) : Char := Char.ofNat (48 + d)

/-- The decimal digits of `n`, least significant first, with explicit
fuel (`fuel ≥ n` suffices). -/
def natDigitsRev (fuel n : Nat) : List Char :=
  match fuel with
  | 0 => []
  | fuel + 1 => if n = 0 then [] else digitChar (n % 10) :: natDigitsRev fuel (n / 10)

/-- Decimal notation for a natural number. -/
def printNat (n : Nat) : List Char :=
  if n = 0 then ['0'] else (natDigitsRev n n).reverse

/-- Decimal notation for an integer, as `JSON.stringify` prints it. -/
def printInt (n : Int) : List Char :=
  if n < 0 then '-' :: printNat n.natAbs else printNat n.natAbs

mutual

/-- model of `JSON.stringify` on a `Json` value (no whitespace). -/
def printJson : Json → List Char
  | .null => 'n' :: 'u' :: 'l' :: 'l' :: []
  | .bool true => 't' :: 'r' :: 'u' :: 'e' :: []
  | .bool false => 'f' :: 'a' :: 'l' :: 's' :: 'e' :: []
  | .num n => printInt n
  | .str s => printString s
  | .arr l => '[' :: (printJsonList l ++ [']'])
  | .obj fs => openBrace :: (printFields fs ++ [closeBrace])

/-- Comma-separated array elements. -/
def printJsonList : List Json → List Char
  | [] => []
  | [j] => printJson j
  | j :: rest => printJson j ++ ',' :: printJsonList rest

/-- Comma-separated `"key":value` object fields. -/
def printFields : List (String × Json) → List Char
  | [] => []
  | [(k, v)] => printString k ++ ':' :: printJson v
  | (k, v) :: rest => printString k ++ ':' :: printJson v ++ ',' :: printFields rest

end

/-! ### The parser (model of `JSON.parse`) -/

/-- Split the longest leading run of decimal digits off a character
list. -/
def takeDigits : List Char → (List Char × List Char)
  | [] => ([], [])
  | c :: rest =>
      if c.isDigit then
        let p := takeDigits rest
        (c :: p.1, p.2)
      else ([], c :: rest)

/-- The value of a big-endian digit-character list. -/
def digitsVal (ds : List Char) : Nat :=
  ds.foldl (fun a c => a * 10 + (c.toNat - 48)) 0

/-- Parse a decimal integer (optional leading minus, at least one
digit). -/
def parseNumber (cs : List Char) : Option (Json × List Char) :=
  match cs with
  | [] => none
  | c :: rest =>
      if c = '-' then
        match takeDigits rest with
        | ([], _) => none
        | (ds, r) => some (.num (-(digitsVal ds : Int)), r)
      else
        match takeDigits cs with
        | ([], _) => none
        | (ds, r) => some (.num ((digitsVal ds : Int)), r)

/-- Parse the body of a string literal after the opening quote, up to
and including the closing quote, unescaping `\"` and `\\`. -/
def parseStringChars : List Char → Option (List Char × List Char)
  | [] => none
  | c :: rest =>
      if c = '"' then some ([], rest)
      else if c = '\\' then
        match rest with
        | [] => none
        | d :: rest2 =>
            if d = '"' ∨ d = '\\' then
              match parseStringChars rest2 with
              | some (sc, r) => some (d :: sc, r)
              | none => none
            else none
      else
        match parseStringChars rest with
        | some (sc, r) => some (c :: sc, r)
        | none => none

mutual

/-- Parse one JSON value, dispatching on the first character; `fuel`
bounds the nesting (each recursive descent consumes one unit). -/
def parseVal : Nat → List Char → Option (Json × List Char)
  | 0, _ => none
  | fuel + 1, cs =>
      match cs with
      | [] => none
      | c :: rest =>
          if c = 'n' then
            match rest with
            | 'u' :: 'l' :: 'l' :: r => some (.null, r)
            | _ => none
          else if c = 't' then
            match rest with
            | 'r' :: 'u' :: 'e' :: r => some (.bool true, r)
            | _ => none
          else if c = 'f' then
            match rest with
            | 'a' :: 'l' :: 's' :: 'e' :: r => some (.bool false, r)
            | _ => none
          else if c = '"' then
            match parseStringChars rest with
            | some (sc, r) => some (.str (String.mk sc), r)
            | none => none
          else if c = '[' then
            match rest with
            | [] => none
            | d :: r2 =>
                if d = ']' then some (.arr [], r2)
                else
                  match parseElems fuel rest with
                  | some (l, r) => some (.arr l, r)
                  | none => none
          else if c = openBrace then
            match rest with
            | [] => none
            | d :: r2 =>
                if d = closeBrace then some (.obj [], r2)
                else
                  match parseFields fuel rest with
                  | some (fs, r) => some (.obj fs, r)
                  | none => none
          else parseNumber cs

/-- Parse `value (',' value)* ']'`. -/
def parseElems : Nat → List Char → Option (List Json × List Char)
  | 0, _ => none
  | fuel + 1, cs =>
      match parseVal fuel cs with
      | none => none
      | some (v, r) =>
          match r with
          | [] => none
          | d :: r2 =>
              if d = ',' then
                match parseElems fuel r2 with
                | some (l, r3) => some (v :: l, r3)
                | none => none
              else if d = ']' then some ([v], r2)
              else none

/-- Parse `"key" ':' value (',' "key" ':' value)* '\x7d'`. -/
def parseFields : Nat → List Char → Option (List (String × Json) × List Char)
  | 0, _ => none
  | fuel + 1, cs =>
      match cs with
      | [] => none
      | c :: rest =>
          if c = '"' then
            match parseStringChars rest with
            | none => none
            | some (kc, r) =>
                match r with
                | [] => none
                | d :: r2 =>
                    if d = ':' then
                      match parseVal fuel r2 with
                      | none => none
                      | some (v, r3) =>
                          match r3 with
                          | [] => none
                          | e :: r4 =>
                              if e = ',' then
                                match parseFields fuel r4 with
                                | some (fs, r5) => some ((String.mk kc, v) :: fs, r5)
                                | none => none
                              else if e = closeBrace then
                                some ([(String.mk kc, v)], r4)
                              else none
                    else none
          else none

end

mutual

/-- Enough parser fuel for a value (one unit per descent step). -/
def jfuel : Json → Nat
  | .null => 1
  | .bool _ => 1
  | .num _ => 1
  | .str _ => 1
  | .arr l => 1 + lfuel l
  | .obj fs => 1 + ffuel fs

def lfuel : List Json → Nat
  | [] => 1
  | j :: rest => 1 + max (jfuel j) (lfuel rest)

def ffuel : List (String × Json) → Nat
  | [] => 1
  | kv :: rest => 1 + max (jfuel kv.2) (ffuel rest)

end

/-- Model of `JSON.parse` on a whole string: parse one value with fuel
ample for the input length and require that the input is consumed
exactly; anything else (in particular malformed input) is a parse
error, which the source catches. -/
def parseJson (s : String) : Option Json :=
  match parseVal (s.data.length + 1) s.data with
  | some (j, []) => some j
  | _ => none

/-- JavaScript property access `doc.key` on a parsed JSON value. -/
def getField (j : Json) (key : String) : Option Json :=
  match j with
  | .obj fields => fields.lookup key
  | _ => none

/-! ## Shapes as JSON (the document format `\x7b"shapes": Shape[]\x7d`) -/

/-- The `type` discriminant string of each shape kind. -/
def typeName : ShapeData → String
  | .rectangle _ _ => "rectangle"
  | .circle _ => "circle"
  | .line _ => "line"
  | .freehand _ => "freehand"
  | .text _ _ => "text"
  | .sticky _ _ _ _ => "sticky"
  | .noteEmbed _ _ _ _ _ => "noteEmbed"
  | .mindmapNode _ _ _ _ _ _ => "mindmapNode"
  | .connector _ _ _ => "connector"

/-- The per-kind JSON fields of a shape, mirroring each variant's extra
properties in the source interfaces. -/
def dataFields : ShapeData → List (String × Json)
  | .rectangle w h => [("width", .num w), ("height", .num h)]
  | .circle r => [("radius", .num r)]
  | .line pts => [("points", .arr (pts.map Json.num))]
  | .freehand pts => [("points", .arr (pts.map Json.num))]
  | .text tx fs => [("text", .str tx), ("fontSize", .num fs)]
  | .sticky w h tx ci =>
      [("width", .num w), ("height", .num h), ("text", .str tx), ("colorIndex", .num ci)]
  | .noteEmbed w h nid nt np =>
      [("width", .num w), ("height", .num h), ("noteId", .str nid),
       ("noteTitle", .str nt), ("notePreview", .str np)]
  | .mindmapNode w h tx pid ir co =>
      [("width", .num w), ("height", .num h), ("text", .str tx),
       ("parentId", match pid with | some s => .str s | none => .null),
       ("isRoot", .bool ir), ("collapsed", .bool co)]
  | .connector f t pts =>
      [("fromId", .str f), ("toId", .str t), ("points", .arr (pts.map Json.num))]

/-- The optional `fill` property: omitted when absent, exactly as
`JSON.stringify` omits an `undefined` property. -/
def fillField : Option String → List (String × Json)
  | none => []
  | some f => [("fill", .str f)]

/-- A shape as the JSON object `JSON.stringify` sees: the `BaseShape`
properties followed by the per-kind ones. -/
def encodeShape (s : Shape) : Json :=
  .obj ([("id", .str s.id), ("type", .str (typeName s.data)), ("x", .num s.x),
         ("y", .num s.y), ("stroke", .str s.stroke), ("strokeWidth", .num s.strokeWidth)]
        ++ fillField s.fill ++ dataFields s.data)

/-- Read a JSON string field. -/
def asStr : Option Json → Option String
  | some (.str s) => some s
  | _ => none

/-- Read a JSON number field. -/
def asNum : Option Json → Option Int
  | some (.num n) => some n
  | _ => none

/-- Read a JSON boolean field. -/
def asBool : Option Json → Option Bool
  | some (.bool b) => some b
  | _ => none

/-- Read a flat number array. -/
def decodeNums : List Json → Option (List Int)
  | [] => some []
  | .num n :: rest => (decodeNums rest).map (fun l => n :: l)
  | _ => none

def asNums : Option Json → Option (List Int)
  | some (.arr l) => decodeNums l
  | _ => none

/-- View a parsed JSON value as a `Shape` (the embedding's reading of
the untyped cast `parsed.shapes as Shape[]` in the load path): the
`BaseShape` fields plus the fields of the variant selected by `type`. -/
def decodeShape (j : Json) : Option Shape := do
  let id ← asStr (getField j "id")
  let ty ← asStr (getField j "type")
  let x ← asNum (getField j "x")
  let y ← asNum (getField j "y")
  let stroke ← asStr (getField j "stroke")
  let strokeWidth ← asNum (getField j "strokeWidth")
  let fill := asStr (getField j "fill")
  if ty = "rectangle" then
    let w ← asNum (getField j "width")
    let h ← asNum (getField j "height")
    pure (Shape.mk id x y stroke strokeWidth fill (.rectangle w h))
  else if ty = "circle" then
    let r ← asNum (getField j "radius")
    pure (Shape.mk id x y stroke strokeWidth fill (.circle r))
  else if ty = "line" then
    let pts ← asNums (getField j "points")
    pure (Shape.mk id x y stroke strokeWidth fill (.line pts))
  else if ty = "freehand" then
    let pts ← asNums (getField j "points")
    pure (Shape.mk id x y stroke strokeWidth fill (.freehand pts))
  else if ty = "text" then
    let tx ← asStr (getField j "text")
    let fs ← asNum (getField j "fontSize")
    pure (Shape.mk id x y stroke strokeWidth fill (.text tx fs))
  else if ty = "sticky" then
    let w ← asNum (getField j "width")
    let h ← asNum (getField j "height")
    let tx ← asStr (getField j "text")
    let ci ← asNum (getField j "colorIndex")
    pure (Shape.mk id x y stroke strokeWidth fill (.sticky w h tx ci))
  else if ty = "noteEmbed" then
    let w ← asNum (getField j "width")
    let h ← asNum (getField j "height")
    let nid ← asStr (getField j "noteId")
    let nt ← asStr (getField j "noteTitle")
    let np ← asStr (getField j "notePreview")
    pure (Shape.mk id x y stroke strokeWidth fill (.noteEmbed w h nid nt np))
  else if ty = "mindmapNode" then
    let w ← asNum (getField j "width")
    let h ← asNum (getField j "height")
    let tx ← asStr (getField j "text")
    let pid := asStr (getField j "parentId")
    let ir ← asBool (getField j "isRoot")
    let co ← asBool (getField j "collapsed")
    pure (Shape.mk id x y stroke strokeWidth fill (.mindmapNode w h tx pid ir co))
  else if ty = "connector" then
    let f ← asStr (getField j "fromId")
    let t ← asStr (getField j "toId")
    let pts ← asNums (getField j "points")
    pure (Shape.mk id x y stroke strokeWidth fill (.connector f t pts))
  else none

/-- Read back a whole shapes array, element by element. -/
def decodeShapes : List Json → Option (List Shape)
  | [] => some []
  | j :: rest =>
      match decodeShape j with
      | some s => (decodeShapes rest).map (fun l => s :: l)
      | none => none

/-- `JSON.stringify({shapes: shapesToSave})` from `saveContent`
(lines 403–429). -/
def serializeScene (shapes : Scene) : String :=
  String.mk (printJson (.obj [("shapes", .arr (shapes.map encodeShape))]))

/-- The inverse reading used on load: parse, take the `shapes` array,
view its elements as shapes. -/
def deserializeScene (content : String) : Option Scene :=
  match parseJson content with
  | none => none
  | some doc =>
      match getField doc "shapes" with
      | some (.arr l) => decodeShapes l
      | _ => none

/-- The fallback document `'\x7b"shapes":[]\x7d'` used when the stored
content is empty/absent (`canvas.content || '...'`). -/
def defaultContent : String := "\x7b\"shapes\":[]\x7d"

/-- The load effect (lines 381–400): default empty content, try to
parse; on a parse error the catch block leaves the scene empty; on
success the scene is replaced only when a `shapes` array is present
(otherwise it stays the initial empty array).  The result is the raw
shapes array the editor continues with. -/
def loadShapes (content : String) : List Json :=
  match parseJson (if content = "" then defaultContent else content) with
  | none => []
  | some doc =>
      match getField doc "shapes" with
      | some (.arr l) => l
      | _ => []

/-! ## The debounced save (lines 403–429)

`SaveState` models the refs involved: the single pending timer with the
`shapesToSave` captured by its closure, `lastSavedRef`, `isLoadingRef`,
and the list of `updateCanvas` calls actually issued. -/

structure SaveState where
  pending : Option Scene
  lastSaved : String
  isLoading : Bool
  saves : List String

/-- `saveContent(shapesToSave)`: clear any pending timer and schedule a
new one capturing `shapesToSave`. -/
def scheduleSave (st : SaveState) (shapesToSave : Scene) : SaveState :=
  { st with pending := some shapesToSave }

/-- The timer firing: serialize the captured scene; save only when the
content differs from the last saved content and no load is in progress,
recording the new last-saved content. -/
def fireTimer (st : SaveState) : SaveState :=
  match st.pending with
  | none => st
  | some shp =>
      let content := serializeScene shp
      if content ≠ st.lastSaved ∧ st.isLoading = false then
        { st with pending := none, saves := st.saves ++ [content], lastSaved := content }
      else { st with pending := none }

/-- A burst of edits, each scheduled within the debounce window of the
previous one (so no timer fires in between). -/
def processBurst (st : SaveState) (edits : List Scene) : SaveState :=
  edits.foldl scheduleSave st

/-- What may legally follow a printed number: nothing, or a non-digit
(in printed JSON always a delimiter). -/
def notDigitStart : List Char → Prop
  | [] => True
  | c :: _ => c.isDigit = false

/-- Concrete shapes used by the witnesses and counterexamples below. -/
def rA : Shape :=
  { id := "a", x := 0, y := 0, stroke := "#000", strokeWidth := 2,
    data := .rectangle 100 40 }

def rB : Shape :=
  { id := "b", x := 50, y := 50, stroke := "#000", strokeWidth := 2,
    data := .rectangle 80 30 }

def rC : Shape :=
  { id := "c", x := 10, y := 10, stroke := "#f00", strokeWidth := 2,
    data := .circle 20 }

/-- A concrete pre-clear state: one committed rectangle on top of the
initial empty snapshot. -/
def exClearState : EditorState :=
  { shapes := [rA], history := [[], [rA]], historyIndex := 1,
    selectedId := some "a", mindMapRootId := none }

/-- Concrete mind-map scene for the C6 witness: a root node, a child
node, and the connector from root to child. -/
def exRoot : Shape :=
  { id := "root", x := 0, y := 0, stroke := "#6366f1", strokeWidth := 2,
    data := .mindmapNode 100 40 "Root" none true false }

def exChild : Shape :=
  { id := "child", x := 200, y := 100, stroke := "#6366f1", strokeWidth := 2,
    data := .mindmapNode 100 36 "Child" (some "root") false false }

def exConn : Shape :=
  { id := "conn", x := 0, y := 0, stroke := "#94a3b8", strokeWidth := 2,
    data := .connector "root" "child" [100, 20, 200, 118] }

def exMindMapState : EditorState :=
  { shapes := [exRoot, exChild, exConn], history := [[], [exRoot, exChild, exConn]],
    historyIndex := 1, selectedId := none, mindMapRootId := some "root" }

/-- The pre-burst save state for the C8 witness. -/
def exSaveState : SaveState :=
  { pending := none, lastSaved := "", isLoading := false, saves := [] }


/-! ## Helper lemmas about the history -/

theorem commit_shapes (st : EditorState) (S : Scene) : (commit st S).shapes = S := rfl

theorem commit_historyIndex (st : EditorState) (S : Scene) :
    (commit st S).historyIndex = st.historyIndex + 1 := rfl

theorem commit_history (st : EditorState) (S : Scene) :
    (commit st S).history = st.history.take (st.historyIndex + 1) ++ [S] := rfl

theorem commit_selectedId (st : EditorState) (S : Scene) :
    (commit st S).selectedId = st.selectedId := rfl

theorem commit_history_length (st : EditorState) (S : Scene)
    (hinv : st.historyIndex < st.history.length) :
    (commit st S).history.length = st.historyIndex + 2 := by
  rw [commit_history]
  simp only [List.length_append, List.length_take, List.length_cons, List.length_nil]
  omega

theorem undo_shapes_pos (st : EditorState) (h : 0 < st.historyIndex) :
    (undo st).shapes = st.history.getD (st.historyIndex - 1) [] := by
  unfold undo
  rw [if_pos h]

theorem undo_historyIndex_pos (st : EditorState) (h : 0 < st.historyIndex) :
    (undo st).historyIndex = st.historyIndex - 1 := by
  unfold undo
  rw [if_pos h]

theorem undo_history (st : EditorState) : (undo st).history = st.history := by
  unfold undo
  split <;> rfl

/-- `undo()` at index 0 is a silent no-op: the whole state is unchanged. -/
theorem undo_noop (st : EditorState) (h : st.historyIndex = 0) : undo st = st := by
  unfold undo
  rw [if_neg (by omega)]

theorem redo_shapes_pos (st : EditorState) (h : st.historyIndex < st.history.length - 1) :
    (redo st).shapes = st.history.getD (st.historyIndex + 1) [] := by
  unfold redo
  rw [if_pos h]

theorem redo_historyIndex_pos (st : EditorState) (h : st.historyIndex < st.history.length - 1) :
    (redo st).historyIndex = st.historyIndex + 1 := by
  unfold redo
  rw [if_pos h]

theorem redo_history (st : EditorState) : (redo st).history = st.history := by
  unfold redo
  split <;> rfl

/-- The history of two successive commits: the old redo tail is
truncated, then `S1, S2` are appended. -/
theorem commit_commit_history (st : EditorState) (S1 S2 : Scene) :
    (commit (commit st S1) S2).history =
      st.history.take (st.historyIndex + 1) ++ [S1, S2] := by
  rw [commit_history, commit_historyIndex, commit_history,
    List.take_of_length_le (by simp), List.append_assoc]
  rfl

/-- `redo` either leaves the scene unchanged or restores one of the
stored snapshots. -/
theorem redo_shapes_cases (st : EditorState) :
    (redo st).shapes = st.shapes ∨ (redo st).shapes ∈ st.history := by
  unfold redo
  split
  · next h =>
    right
    have hlt : st.historyIndex + 1 < st.history.length := by omega
    simp only [List.getD_eq_getElem?_getD, List.getElem?_eq_getElem hlt]
    exact List.getElem_mem _
  · left
    rfl

/-- Iterated `redo` never leaves the set of stored snapshots. -/
theorem redoN_shapes_mem (n : Nat) (st : EditorState)
    (hmem : st.shapes ∈ st.history) : (redoN n st).shapes ∈ (redoN n st).history := by
  induction n generalizing st with
  | zero => exact hmem
  | succ n ih =>
    refine ih (redo st) ?_
    rw [redo_history]
    rcases redo_shapes_cases st with h | h
    · rw [h]
      exact hmem
    · exact h

theorem redoN_history (n : Nat) (st : EditorState) :
    (redoN n st).history = st.history := by
  induction n generalizing st with
  | zero => rfl
  | succ n ih => rw [redoN, ih, redo_history]

/-! ## C1: undo/redo inverse -/

/-- C1: for any history state satisfying the index invariant, after
`commit(S1)` then `commit(S2)`, one `undo()` makes the current scene
`S1`, a subsequent `redo()` makes it `S2` again (restoring the index),
and `undo()` at index 0 is a silent no-op that changes neither the
index nor the current scene. -/
theorem undo_redo_inverse (st : EditorState) (S1 S2 : Scene)
    (hinv : st.historyIndex < st.history.length) :
    (undo (commit (commit st S1) S2)).shapes = S1 ∧
    (redo (undo (commit (commit st S1) S2))).shapes = S2 ∧
    (redo (undo (commit (commit st S1) S2))).historyIndex =
      (commit (commit st S1) S2).historyIndex ∧
    (∀ s : EditorState, s.historyIndex = 0 → undo s = s) := by
  have htake : (st.history.take (st.historyIndex + 1)).length = st.historyIndex + 1 := by
    simp
    omega
  have hhist : (commit (commit st S1) S2).history =
      st.history.take (st.historyIndex + 1) ++ [S1, S2] :=
    commit_commit_history st S1 S2
  have hidx : (commit (commit st S1) S2).historyIndex = st.historyIndex + 2 := rfl
  have hlen : (commit (commit st S1) S2).history.length = st.historyIndex + 3 := by
    rw [hhist]
    simp only [List.length_append, List.length_cons, List.length_nil, htake]
  have hu1 : (undo (commit (commit st S1) S2)).shapes = S1 := by
    rw [undo_shapes_pos _ (by rw [hidx]; omega), hidx, hhist]
    have h2 : st.historyIndex + 2 - 1 = st.historyIndex + 1 := by omega
    rw [h2, List.getD_eq_getElem?_getD, List.getElem?_append_right (by omega), htake]
    simp
  have huidx : (undo (commit (commit st S1) S2)).historyIndex = st.historyIndex + 1 := by
    rw [undo_historyIndex_pos _ (by rw [hidx]; omega), hidx]
    omega
  have huhist : (undo (commit (commit st S1) S2)).history =
      st.history.take (st.historyIndex + 1) ++ [S1, S2] := by
    rw [undo_history, hhist]
  have hrcond : (undo (commit (commit st S1) S2)).historyIndex <
      (undo (commit (commit st S1) S2)).history.length - 1 := by
    rw [huidx, undo_history, hlen]
    omega
  refine ⟨hu1, ?_, ?_, fun s hs => undo_noop s hs⟩
  · rw [redo_shapes_pos _ hrcond, huidx, huhist,
      List.getD_eq_getElem?_getD, List.getElem?_append_right (by omega), htake]
    have h2 : st.historyIndex + 1 + 1 - (st.historyIndex + 1) = 1 := by omega
    rw [h2]
    simp
  · rw [redo_historyIndex_pos _ hrcond, huidx, hidx]

/-- Witness for C1 at a concrete input: the initial state, `S1` a
one-rectangle scene, `S2` the empty scene. -/
theorem undo_redo_inverse_witness :
    initialState.historyIndex < initialState.history.length ∧
    ((undo (commit (commit initialState
        [{ id := "r1", x := 0, y := 0, stroke := "#000", strokeWidth := 2,
           data := .rectangle 100 40 }] ) [])).shapes =
      [{ id := "r1", x := 0, y := 0, stroke := "#000", strokeWidth := 2,
         data := .rectangle 100 40 }] ∧
      (redo (undo (commit (commit initialState
        [{ id := "r1", x := 0, y := 0, stroke := "#000", strokeWidth := 2,
           data := .rectangle 100 40 }] ) []))).shapes = [] ∧
      (redo (undo (commit (commit initialState
        [{ id := "r1", x := 0, y := 0, stroke := "#000", strokeWidth := 2,
           data := .rectangle 100 40 }] ) []))).historyIndex =
        (commit (commit initialState
          [{ id := "r1", x := 0, y := 0, stroke := "#000", strokeWidth := 2,
             data := .rectangle 100 40 }] ) []).historyIndex ∧
      (∀ s : EditorState, s.historyIndex = 0 → undo s = s)) :=
  ⟨by decide,
   undo_redo_inverse initialState
     [{ id := "r1", x := 0, y := 0, stroke := "#000", strokeWidth := 2,
        data := .rectangle 100 40 }] [] (by decide)⟩

/-! ## C2: history truncation -/

/-- C2: from any invariant-satisfying state, after `commit(S1)`,
`commit(S2)`, `undo()`, a further `commit(S3)` truncates the tail
holding `S2` before appending `S3`; hence, when `S2` is not otherwise
among the surviving snapshots, no sequence of `redo()` calls can ever
make the current scene `S2` again. -/
theorem history_truncation (st : EditorState) (S1 S2 S3 : Scene)
    (hinv : st.historyIndex < st.history.length)
    (hS2 : S2 ∉ st.history.take (st.historyIndex + 1) ++ [S1, S3]) :
    (commit (undo (commit (commit st S1) S2)) S3).history =
      st.history.take (st.historyIndex + 1) ++ [S1, S3] ∧
    ∀ n, (redoN n (commit (undo (commit (commit st S1) S2)) S3)).shapes ≠ S2 := by
  have htake : (st.history.take (st.historyIndex + 1)).length = st.historyIndex + 1 := by
    simp
    omega
  have hhist : (commit (commit st S1) S2).history =
      st.history.take (st.historyIndex + 1) ++ [S1, S2] :=
    commit_commit_history st S1 S2
  have hidx : (commit (commit st S1) S2).historyIndex = st.historyIndex + 2 := rfl
  have huidx : (undo (commit (commit st S1) S2)).historyIndex = st.historyIndex + 1 := by
    rw [undo_historyIndex_pos _ (by rw [hidx]; omega), hidx]
    omega
  have hd : st.historyIndex + 1 + 1 - (st.historyIndex + 1) = 1 := by omega
  have hhist3 : (commit (undo (commit (commit st S1) S2)) S3).history =
      st.history.take (st.historyIndex + 1) ++ [S1, S3] := by
    rw [commit_history, undo_history, huidx, hhist,
      List.take_append_eq_append_take,
      List.take_of_length_le (by rw [htake]; omega), htake, hd]
    simp
  refine ⟨hhist3, ?_⟩
  intro n
  have hmem : (redoN n (commit (undo (commit (commit st S1) S2)) S3)).shapes ∈
      (commit (undo (commit (commit st S1) S2)) S3).history := by
    have hm := redoN_shapes_mem n (commit (undo (commit (commit st S1) S2)) S3) ?_
    · rwa [redoN_history] at hm
    · rw [commit_shapes, hhist3]
      simp
  intro hcontra
  rw [hcontra, hhist3] at hmem
  exact hS2 hmem

/-- Witness for C2 at a concrete input: from the initial state, commit
`[rA]`, then `[rA, rB]`, undo, commit `[rC]`; the scene `[rA, rB]` is
unreachable by any number of redos. -/
theorem history_truncation_witness :
    (initialState.historyIndex < initialState.history.length ∧
      [rA, rB] ∉ initialState.history.take (initialState.historyIndex + 1) ++ [[rA], [rC]]) ∧
    ((commit (undo (commit (commit initialState [rA]) [rA, rB])) [rC]).history =
      initialState.history.take (initialState.historyIndex + 1) ++ [[rA], [rC]] ∧
    ∀ n, (redoN n (commit (undo (commit (commit initialState [rA]) [rA, rB])) [rC])).shapes ≠
      [rA, rB]) :=
  ⟨⟨by decide, by decide⟩,
   history_truncation initialState [rA] [rA, rB] [rC] (by decide) (by decide)⟩

/-! ## C3: clear canvas

The spec's claim that `clearCanvas` resets the history to a single
empty-scene entry at index 0 is false on the code: `clearCanvas` pushes
the empty scene through `addToHistory`, which appends a new entry after
the current index, so the history grows and the index advances. -/

/-- Counterexample to C3 as stated: clearing `exClearState` leaves a
history of length 3 at index 2, not a single entry at index 0 (the
scene, selection and root ARE cleared, but the history is appended to,
not reset). -/
theorem clear_canvas_counterexample :
    ¬ ((clearCanvas exClearState).history.length = 1 ∧
       (clearCanvas exClearState).historyIndex = 0 ∧
       (clearCanvas exClearState).shapes = [] ∧
       (clearCanvas exClearState).selectedId = none ∧
       (clearCanvas exClearState).mindMapRootId = none) := by
  decide

/-- C3 (amended): the clear-canvas operation sets the scene to the empty
array and commits it as a NEW history entry — truncating any redo tail
after the current index, appending the empty scene and incrementing the
index — and clears the selection and the mind-map root reference.  (So
the pre-clear scene stays reachable by undo; the history is not reset
to a single entry.) -/
theorem clear_canvas_commits (st : EditorState) :
    (clearCanvas st).shapes = [] ∧
    (clearCanvas st).selectedId = none ∧
    (clearCanvas st).mindMapRootId = none ∧
    (clearCanvas st).history = st.history.take (st.historyIndex + 1) ++ [[]] ∧
    (clearCanvas st).historyIndex = st.historyIndex + 1 :=
  ⟨rfl, rfl, rfl, rfl, rfl⟩

/-! ## C5: hit-testing returns the topmost hit -/

/-- `findShapeAtPosition` misses exactly when no shape contains the
point. -/
theorem findShapeAtPosition_eq_none_iff (S : Scene) (p : Point) :
    findShapeAtPosition S p = none ↔ ∀ s ∈ S, containsPoint s p = false := by
  induction S with
  | nil => simp [findShapeAtPosition]
  | cons s rest ih =>
    rw [findShapeAtPosition]
    cases hr : findShapeAtPosition rest p with
    | some t =>
      simp only [reduceCtorEq, false_iff]
      intro hall
      have : findShapeAtPosition rest p = none := by
        rw [ih]
        intro u hu
        exact hall u (List.mem_cons_of_mem s hu)
      rw [this] at hr
      exact absurd hr (by simp)
    | none =>
      by_cases hc : containsPoint s p
      · simp only [hc, if_true, reduceCtorEq, false_iff]
        intro hall
        have := hall s (List.mem_cons_self s rest)
        rw [hc] at this
        exact absurd this (by simp)
      · simp only [Bool.not_eq_true] at hc
        simp only [hc, Bool.false_eq_true, if_false, true_iff]
        intro u hu
        rcases List.mem_cons.mp hu with h | h
        · rw [h]
          exact hc
        · exact (ih.mp hr) u h

/-- When `findShapeAtPosition` hits, the hit shape contains the point,
lies in the scene, and every shape AFTER it (i.e. drawn on top of
nothing but definitely inserted later) does not contain the point: the
topmost containing shape wins. -/
theorem findShapeAtPosition_some (S : Scene) (p : Point) (sh : Shape)
    (h : findShapeAtPosition S p = some sh) :
    containsPoint sh p = true ∧
    ∃ pre post, S = pre ++ sh :: post ∧ ∀ t ∈ post, containsPoint t p = false := by
  induction S with
  | nil => simp [findShapeAtPosition] at h
  | cons s rest ih =>
    rw [findShapeAtPosition] at h
    cases hr : findShapeAtPosition rest p with
    | some t =>
      rw [hr] at h
      have ht : t = sh := by injection h
      subst ht
      obtain ⟨hc, pre, post, hsplit, hpost⟩ := ih hr
      exact ⟨hc, s :: pre, post, by rw [hsplit]; rfl, hpost⟩
    | none =>
      rw [hr] at h
      by_cases hc : containsPoint s p
      · rw [if_pos hc] at h
        have hs : s = sh := by injection h
        subst hs
        refine ⟨hc, [], rest, rfl, ?_⟩
        exact fun t ht => (findShapeAtPosition_eq_none_iff rest p).mp hr t ht
      · rw [if_neg hc] at h
        exact absurd h (by simp)

/-- C5: hit-testing scans the scene from the last element to the first
and returns the first (i.e. last-inserted, topmost) shape whose
containment test accepts `p`, or `none` when no shape contains `p`; in
particular, of two overlapping rectangles both containing `p`, the
later-inserted one is returned. -/
theorem hit_test_topmost (S : Scene) (p : Point) :
    (findShapeAtPosition S p = none ↔ ∀ s ∈ S, containsPoint s p = false) ∧
    (∀ sh, findShapeAtPosition S p = some sh →
      containsPoint sh p = true ∧
      ∃ pre post, S = pre ++ sh :: post ∧ ∀ t ∈ post, containsPoint t p = false) ∧
    (∀ r1 r2 : Shape, (∃ w h, r1.data = ShapeData.rectangle w h) →
      (∃ w h, r2.data = ShapeData.rectangle w h) →
      containsPoint r1 p = true → containsPoint r2 p = true →
      findShapeAtPosition [r1, r2] p = some r2) := by
  refine ⟨findShapeAtPosition_eq_none_iff S p,
    fun sh h => findShapeAtPosition_some S p sh h, ?_⟩
  intro r1 r2 _ _ _ hc2
  rw [findShapeAtPosition, findShapeAtPosition, findShapeAtPosition, if_pos hc2]

/-! ## C6: the eraser cascades to connectors -/

/-- `eraseKeep` in propositional form. -/
theorem eraseKeep_eq_true (hitId : String) (t : Shape) :
    eraseKeep hitId t = true ↔
      (t.id ≠ hitId ∧ ∀ f g pts, t.data = ShapeData.connector f g pts →
        f ≠ hitId ∧ g ≠ hitId) := by
  unfold eraseKeep connectorRefs
  cases hdata : t.data <;> simp only [hdata] <;> by_cases hid : t.id = hitId <;>
    simp [hid]

/-- C6: when the eraser hits shape `sh`, the resulting scene is a
subsequence of the old one (relative order preserved) in which a shape
survives exactly when it is not `sh` (by id) and is not a connector
referencing `sh`'s id; the result is committed to history. -/
theorem eraser_cascades (st : EditorState) (pos : Point) (sh : Shape)
    (hfind : findShapeAtPosition st.shapes pos = some sh) :
    ((eraseHit st pos).shapes.Sublist st.shapes) ∧
    (∀ t ∈ st.shapes, (t ∈ (eraseHit st pos).shapes ↔
        (t.id ≠ sh.id ∧ ∀ f g pts, t.data = ShapeData.connector f g pts →
          f ≠ sh.id ∧ g ≠ sh.id))) ∧
    (eraseHit st pos).history =
      st.history.take (st.historyIndex + 1) ++ [(eraseHit st pos).shapes] ∧
    (eraseHit st pos).historyIndex = st.historyIndex + 1 := by
  have he : eraseHit st pos = commit st (st.shapes.filter (eraseKeep sh.id)) := by
    unfold eraseHit
    rw [hfind]
  rw [he]
  refine ⟨List.filter_sublist _, ?_, rfl, rfl⟩
  intro t ht
  rw [commit_shapes, List.mem_filter, ← eraseKeep_eq_true]
  exact ⟨fun ⟨_, hk⟩ => hk, fun hk => ⟨ht, hk⟩⟩

/-- Witness for C6 at a concrete input: erasing at (10, 10) hits the
root node; the root and the connector go, the child stays. -/
theorem eraser_cascades_witness :
    findShapeAtPosition exMindMapState.shapes ⟨10, 10⟩ = some exRoot ∧
    (((eraseHit exMindMapState ⟨10, 10⟩).shapes.Sublist exMindMapState.shapes) ∧
     (∀ t ∈ exMindMapState.shapes, (t ∈ (eraseHit exMindMapState ⟨10, 10⟩).shapes ↔
        (t.id ≠ exRoot.id ∧ ∀ f g pts, t.data = ShapeData.connector f g pts →
          f ≠ exRoot.id ∧ g ≠ exRoot.id))) ∧
     (eraseHit exMindMapState ⟨10, 10⟩).history =
       exMindMapState.history.take (exMindMapState.historyIndex + 1) ++
         [(eraseHit exMindMapState ⟨10, 10⟩).shapes] ∧
     (eraseHit exMindMapState ⟨10, 10⟩).historyIndex = exMindMapState.historyIndex + 1) :=
  ⟨by decide, eraser_cascades exMindMapState ⟨10, 10⟩ exRoot (by decide)⟩

/-! ## C7: the zoom factor is clamped to [0.1, 5] -/

/-- One zoom operation keeps the factor inside `[MIN_ZOOM, MAX_ZOOM]`. -/
theorem applyZoom_mem (op : ZoomOp) (z : ℚ)
    (hlo : MIN_ZOOM ≤ z) (hhi : z ≤ MAX_ZOOM) :
    MIN_ZOOM ≤ applyZoom op z ∧ applyZoom op z ≤ MAX_ZOOM := by
  have hminmax : MIN_ZOOM ≤ MAX_ZOOM := by norm_num [MIN_ZOOM, MAX_ZOOM]
  cases op with
  | zoomIn =>
    constructor
    · refine le_min hminmax ?_
      have h0 : (0 : ℚ) < ZOOM_STEP := by norm_num [ZOOM_STEP]
      linarith
    · exact min_le_left _ _
  | zoomOut =>
    constructor
    · exact le_max_left _ _
    · refine max_le hminmax ?_
      have h0 : (0 : ℚ) < ZOOM_STEP := by norm_num [ZOOM_STEP]
      linarith
  | resetView => norm_num [applyZoom, MIN_ZOOM, MAX_ZOOM]
  | zoomAtPoint delta =>
    exact ⟨le_max_left _ _, max_le hminmax (min_le_left _ _)⟩
  | pinch scaleFactor =>
    exact ⟨le_max_left _ _, max_le hminmax (min_le_left _ _)⟩

/-- C7: starting from zoom 1, any sequence of zoom operations (fixed
steps, reset, wheel zoom with any delta, pinch with any scale factor)
leaves the factor inside `[0.1, 5]`; and an out-of-range request to the
clamping operations lands exactly on the nearer boundary. -/
theorem zoom_clamped (ops : List ZoomOp) :
    (MIN_ZOOM ≤ zoomAfter ops ∧ zoomAfter ops ≤ MAX_ZOOM) ∧
    (∀ z delta : ℚ, z + delta ≤ MIN_ZOOM →
      applyZoom (ZoomOp.zoomAtPoint delta) z = MIN_ZOOM) ∧
    (∀ z delta : ℚ, MAX_ZOOM ≤ z + delta →
      applyZoom (ZoomOp.zoomAtPoint delta) z = MAX_ZOOM) := by
  refine ⟨?_, ?_, ?_⟩
  · have hgen : ∀ (l : List ZoomOp) (z : ℚ), MIN_ZOOM ≤ z → z ≤ MAX_ZOOM →
        MIN_ZOOM ≤ l.foldl (fun w op => applyZoom op w) z ∧
          l.foldl (fun w op => applyZoom op w) z ≤ MAX_ZOOM := by
      intro l
      induction l with
      | nil => exact fun z hlo hhi => ⟨hlo, hhi⟩
      | cons op rest ih =>
        intro z hlo hhi
        obtain ⟨h1, h2⟩ := applyZoom_mem op z hlo hhi
        exact ih (applyZoom op z) h1 h2
    exact hgen ops 1 (by norm_num [MIN_ZOOM]) (by norm_num [MAX_ZOOM])
  · intro z delta h
    have hminmax : MIN_ZOOM ≤ MAX_ZOOM := by norm_num [MIN_ZOOM, MAX_ZOOM]
    show max MIN_ZOOM (min MAX_ZOOM (z + delta)) = MIN_ZOOM
    rw [min_eq_right (le_trans h hminmax), max_eq_left h]
  · intro z delta h
    show max MIN_ZOOM (min MAX_ZOOM (z + delta)) = MAX_ZOOM
    rw [min_eq_left h]
    exact max_eq_right (by norm_num [MIN_ZOOM, MAX_ZOOM])

/-! ## C10: un-normalized negative rectangles are unselectable -/

/-- C10: dragging a rectangle toward the upper-left stores negative
width/height on pointer-up (no normalization anywhere on the path), and
hit-testing never returns a rectangle with negative width or height, so
such a rectangle can never be hit — hence never selected or erased by
pointing at it. -/
theorem negative_rectangle_unselectable :
    (∀ (c : Shape) (startPoint pos : Point) (w h : Int),
      c.data = ShapeData.rectangle w h →
      (resizeRectangle c startPoint pos).data =
        ShapeData.rectangle (pos.x - startPoint.x) (pos.y - startPoint.y)) ∧
    (∀ (st : EditorState) (c : Shape),
      (handleMouseUp st (some c) true).shapes = st.shapes ++ [c]) ∧
    (∀ (c : Shape) (startPoint pos : Point) (w h : Int),
      c.data = ShapeData.rectangle w h →
      pos.x < startPoint.x → pos.y < startPoint.y →
      ∃ w2 h2, (resizeRectangle c startPoint pos).data = ShapeData.rectangle w2 h2 ∧
        w2 < 0 ∧ h2 < 0) ∧
    (∀ (S : Scene) (p : Point) (sh : Shape) (w h : Int),
      findShapeAtPosition S p = some sh → sh.data = ShapeData.rectangle w h →
      0 ≤ w ∧ 0 ≤ h) ∧
    (∀ (S : Scene) (p : Point) (sh : Shape) (w h : Int),
      sh.data = ShapeData.rectangle w h → (w < 0 ∨ h < 0) →
      findShapeAtPosition S p ≠ some sh) := by
  have hrect : ∀ (S : Scene) (p : Point) (sh : Shape) (w h : Int),
      findShapeAtPosition S p = some sh → sh.data = ShapeData.rectangle w h →
      0 ≤ w ∧ 0 ≤ h := by
    intro S p sh w h hfind hdata
    have hc := (findShapeAtPosition_some S p sh hfind).1
    rw [containsPoint, hdata] at hc
    simp only [decide_eq_true_eq] at hc
    obtain ⟨h1, h2, h3, h4⟩ := hc
    constructor <;> linarith
  refine ⟨?_, ?_, ?_, hrect, ?_⟩
  · intro c startPoint pos w h hdata
    rw [resizeRectangle, hdata]
  · intro st c
    rfl
  · intro c startPoint pos w h hdata hx hy
    rw [resizeRectangle, hdata]
    exact ⟨pos.x - startPoint.x, pos.y - startPoint.y, rfl, by omega, by omega⟩
  · intro S p sh w h hdata hneg hfind
    obtain ⟨hw, hh⟩ := hrect S p sh w h hfind hdata
    omega

/-! ## Round-trip lemmas: numbers -/

theorem digitChar_isDigit (d : Nat) (h : d < 10) : (digitChar d).isDigit = true := by
  interval_cases d <;> decide

theorem digitChar_toNat (d : Nat) (h : d < 10) : (digitChar d).toNat = 48 + d := by
  interval_cases d <;> decide

theorem natDigitsRev_digits (fuel : Nat) : ∀ (n : Nat) (c : Char),
    c ∈ natDigitsRev fuel n → c.isDigit = true := by
  induction fuel with
  | zero => intro n c hc; simp [natDigitsRev] at hc
  | succ fuel ih =>
    intro n c hc
    rw [natDigitsRev] at hc
    by_cases hn : n = 0
    · rw [if_pos hn] at hc
      simp at hc
    · rw [if_neg hn] at hc
      rcases List.mem_cons.mp hc with h | h
      · rw [h]
        exact digitChar_isDigit _ (Nat.mod_lt _ (by omega))
      · exact ih _ _ h

theorem natDigitsRev_ne_nil (fuel n : Nat) (hn : n ≠ 0) (hf : fuel ≠ 0) :
    natDigitsRev fuel n ≠ [] := by
  cases fuel with
  | zero => exact absurd rfl hf
  | succ fuel => simp [natDigitsRev, hn]

theorem foldrVal_natDigitsRev (fuel : Nat) : ∀ n : Nat, n ≤ fuel →
    (natDigitsRev fuel n).foldr (fun c a => a * 10 + (c.toNat - 48)) 0 = n := by
  induction fuel with
  | zero =>
    intro n h
    have : n = 0 := by omega
    simp [natDigitsRev, this]
  | succ fuel ih =>
    intro n h
    rw [natDigitsRev]
    by_cases hn : n = 0
    · simp [hn]
    · rw [if_neg hn]
      simp only [List.foldr_cons]
      rw [ih (n / 10) (by omega), digitChar_toNat _ (Nat.mod_lt _ (by omega))]
      omega

theorem digitsVal_printNat (n : Nat) : digitsVal (printNat n) = n := by
  unfold printNat
  by_cases hn : n = 0
  · simp [hn, digitsVal]
  · rw [if_neg hn]
    unfold digitsVal
    rw [List.foldl_reverse]
    exact foldrVal_natDigitsRev n n le_rfl

theorem printNat_digits (n : Nat) : ∀ c ∈ printNat n, c.isDigit = true := by
  unfold printNat
  by_cases hn : n = 0
  · simp [hn]
  · rw [if_neg hn]
    intro c hc
    exact natDigitsRev_digits n n c (List.mem_reverse.mp hc)

theorem printNat_ne_nil (n : Nat) : printNat n ≠ [] := by
  unfold printNat
  by_cases hn : n = 0
  · simp [hn]
  · rw [if_neg hn]
    simp only [ne_eq, List.reverse_eq_nil_iff]
    exact natDigitsRev_ne_nil n n hn hn

theorem takeDigits_of_notDigitStart (l : List Char) (h : notDigitStart l) :
    takeDigits l = ([], l) := by
  cases l with
  | nil => rfl
  | cons c r =>
    have hc : c.isDigit = false := h
    simp [takeDigits, hc]

theorem takeDigits_append (ds : List Char) (hds : ∀ c ∈ ds, c.isDigit = true)
    (rest : List Char) (hrest : notDigitStart rest) :
    takeDigits (ds ++ rest) = (ds, rest) := by
  induction ds with
  | nil => simpa using takeDigits_of_notDigitStart rest hrest
  | cons c ds ih =>
    have hc : c.isDigit = true := hds c (List.mem_cons_self c ds)
    rw [List.cons_append, takeDigits]
    simp only [hc, if_true]
    rw [ih (fun d hd => hds d (List.mem_cons_of_mem c hd))]

theorem parseNumber_print (n : Int) (rest : List Char) (hrest : notDigitStart rest) :
    parseNumber (printInt n ++ rest) = some (.num n, rest) := by
  unfold printInt
  by_cases hneg : n < 0
  · rw [if_pos hneg, List.cons_append, parseNumber, if_pos rfl,
      takeDigits_append _ (printNat_digits _) rest hrest]
    obtain ⟨c, cs, hpn⟩ := List.exists_cons_of_ne_nil (printNat_ne_nil n.natAbs)
    rw [hpn]
    simp only
    rw [← hpn, digitsVal_printNat]
    have : -((n.natAbs : Nat) : Int) = n := by omega
    rw [this]
  · rw [if_neg hneg]
    obtain ⟨c, cs, hpn⟩ := List.exists_cons_of_ne_nil (printNat_ne_nil n.natAbs)
    have hc : c.isDigit = true := printNat_digits n.natAbs c (by rw [hpn]; exact List.mem_cons_self c cs)
    have hcm : c ≠ '-' := by
      intro heq
      rw [heq] at hc
      exact absurd hc (by decide)
    rw [hpn, List.cons_append, parseNumber, if_neg hcm, ← List.cons_append, ← hpn,
      takeDigits_append _ (printNat_digits _) rest hrest, hpn]
    simp only
    rw [← hpn, digitsVal_printNat]
    have : ((n.natAbs : Nat) : Int) = n := by omega
    rw [this]

/-! ## Round-trip lemmas: strings -/

theorem parseStringChars_escape (l : List Char) (rest : List Char) :
    parseStringChars (escapeList l ++ '"' :: rest) = some (l, rest) := by
  induction l with
  | nil =>
    rw [escapeList, List.nil_append, parseStringChars.eq_def]
    simp
  | cons c ls ih =>
    rw [escapeList, List.append_assoc]
    by_cases hc : c = '"' ∨ c = '\\'
    · rw [escapeChar, if_pos hc, List.cons_append, List.cons_append, List.nil_append,
        parseStringChars.eq_def]
      have h1 : ('\\' : Char) ≠ '"' := by decide
      simp [h1, hc, ih]
    · rw [escapeChar, if_neg hc, List.cons_append, List.nil_append, parseStringChars.eq_def]
      push_neg at hc
      simp [hc.1, hc.2, ih]

theorem stringMk_data (s : String) : String.mk s.data = s := rfl

/-! ## Round-trip: the full parser vs the full printer -/

theorem jfuel_pos (j : Json) : 1 ≤ jfuel j := by cases j <;> simp [jfuel]

theorem lfuel_pos (l : List Json) : 1 ≤ lfuel l := by cases l <;> simp [lfuel]

theorem ffuel_pos (fs : List (String × Json)) : 1 ≤ ffuel fs := by cases fs <;> simp [ffuel]

theorem printInt_cons (n : Int) :
    ∃ c cs, printInt n = c :: cs ∧ (c = '-' ∨ c.isDigit = true) := by
  unfold printInt
  by_cases hneg : n < 0
  · exact ⟨'-', printNat n.natAbs, by rw [if_pos hneg], Or.inl rfl⟩
  · rw [if_neg hneg]
    obtain ⟨c, cs, hpn⟩ := List.exists_cons_of_ne_nil (printNat_ne_nil n.natAbs)
    exact ⟨c, cs, hpn,
      Or.inr (printNat_digits _ c (by rw [hpn]; exact List.mem_cons_self c cs))⟩

theorem parseVal_to_number (fuel : Nat) (c : Char) (cs : List Char)
    (h : c = '-' ∨ c.isDigit = true) :
    parseVal (fuel + 1) (c :: cs) = parseNumber (c :: cs) := by
  have h1 : c ≠ 'n' := by rintro rfl; revert h; decide
  have h2 : c ≠ 't' := by rintro rfl; revert h; decide
  have h3 : c ≠ 'f' := by rintro rfl; revert h; decide
  have h4 : c ≠ '"' := by rintro rfl; revert h; decide
  have h5 : c ≠ '[' := by rintro rfl; revert h; decide
  have h6 : c ≠ openBrace := by rintro rfl; revert h; decide
  simp only [parseVal]
  rw [if_neg h1, if_neg h2, if_neg h3, if_neg h4, if_neg h5, if_neg h6]

theorem printJsonList_cons (j : Json) (l : List Json) :
    ∃ tail, printJsonList (j :: l) = printJson j ++ tail := by
  cases l with
  | nil => exact ⟨[], (List.append_nil _).symm⟩
  | cons j2 l2 => exact ⟨',' :: printJsonList (j2 :: l2), rfl⟩

theorem printFields_cons (k : String) (v : Json) (fs : List (String × Json)) :
    ∃ tail, printFields ((k, v) :: fs) = printString k ++ ':' :: (printJson v ++ tail) := by
  cases fs with
  | nil => exact ⟨[], by simp [printFields]⟩
  | cons kv2 fs1 => exact ⟨',' :: printFields (kv2 :: fs1), by simp [printFields]⟩

theorem printJson_head (j : Json) : ∃ c cs, printJson j = c :: cs ∧
    (c = 'n' ∨ c = 't' ∨ c = 'f' ∨ c = '"' ∨ c = '[' ∨ c = openBrace ∨
      c = '-' ∨ c.isDigit = true) := by
  cases j with
  | null => exact ⟨'n', _, rfl, by tauto⟩
  | bool b =>
    cases b
    · exact ⟨'f', _, rfl, by tauto⟩
    · exact ⟨'t', _, rfl, by tauto⟩
  | num n =>
    obtain ⟨c, cs, hpc, hcd⟩ := printInt_cons n
    exact ⟨c, cs, hpc, by tauto⟩
  | str s => exact ⟨'"', _, rfl, by tauto⟩
  | arr l => exact ⟨'[', _, rfl, by tauto⟩
  | obj fs => exact ⟨openBrace, _, rfl, by tauto⟩

theorem printJson_head_ne (j : Json) :
    ∃ c cs, printJson j = c :: cs ∧ c ≠ ']' ∧ c ≠ closeBrace := by
  obtain ⟨c, cs, hp, hd⟩ := printJson_head j
  refine ⟨c, cs, hp, ?_, ?_⟩ <;>
    rcases hd with rfl | rfl | rfl | rfl | rfl | rfl | rfl | hdig <;>
    first
      | decide
      | (intro heq; rw [heq] at hdig; exact absurd hdig (by decide))

theorem notDigitStart_cons (c : Char) (r : List Char) (h : c.isDigit = false) :
    notDigitStart (c :: r) := h

/-- Reduction of `parseVal` at an object opener. -/
theorem parseVal_obj (fuel : Nat) (cs : List Char) :
    parseVal (fuel + 1) (openBrace :: cs) =
      (match cs with
       | [] => none
       | d :: _r2 =>
           if d = closeBrace then some (.obj [], _r2)
           else
             match parseFields fuel cs with
             | some (fs, r) => some (.obj fs, r)
             | none => none) := rfl

/-- Reduction of `parseVal` at an array opener. -/
theorem parseVal_arr (fuel : Nat) (cs : List Char) :
    parseVal (fuel + 1) ('[' :: cs) =
      (match cs with
       | [] => none
       | d :: _r2 =>
           if d = ']' then some (.arr [], _r2)
           else
             match parseElems fuel cs with
             | some (l, r) => some (.arr l, r)
             | none => none) := rfl

/-- The joint printer/parser round trip, by induction on the parser
fuel: with enough fuel, parsing the printed form of a value (followed
by any non-digit-initial remainder) succeeds and consumes exactly the
printed form. -/
theorem parse_print_aux : ∀ fuel : Nat,
    (∀ (j : Json) (rest : List Char), jfuel j ≤ fuel → notDigitStart rest →
      parseVal fuel (printJson j ++ rest) = some (j, rest)) ∧
    (∀ (l : List Json) (rest : List Char), l ≠ [] → lfuel l ≤ fuel →
      parseElems fuel (printJsonList l ++ ']' :: rest) = some (l, rest)) ∧
    (∀ (fs : List (String × Json)) (rest : List Char), fs ≠ [] → ffuel fs ≤ fuel →
      parseFields fuel (printFields fs ++ closeBrace :: rest) = some (fs, rest)) := by
  intro fuel
  induction fuel with
  | zero =>
    refine ⟨fun j rest hf _ => absurd hf (by have := jfuel_pos j; omega),
            fun l rest _ hf => absurd hf (by have := lfuel_pos l; omega),
            fun fs rest _ hf => absurd hf (by have := ffuel_pos fs; omega)⟩
  | succ fuel ih =>
    obtain ⟨ihV, ihE, ihF⟩ := ih
    refine ⟨?_, ?_, ?_⟩
    · -- parseVal on a printed value
      intro j rest hf hrest
      cases j with
      | null => simp [parseVal, printJson]
      | bool b => cases b <;> simp [parseVal, printJson]
      | num n =>
        obtain ⟨c, cs, hpc, hcd⟩ := printInt_cons n
        have hpj : printJson (.num n) = printInt n := rfl
        rw [hpj, hpc, List.cons_append, parseVal_to_number fuel c (cs ++ rest) hcd,
          ← List.cons_append, ← hpc]
        exact parseNumber_print n rest hrest
      | str s =>
        have hpj : printJson (.str s) = '"' :: (escapeList s.data ++ ['"']) := rfl
        rw [hpj, List.cons_append, List.append_assoc]
        simp [parseVal, parseStringChars_escape, stringMk_data]
      | arr l =>
        cases l with
        | nil => simp [parseVal, printJson, printJsonList]
        | cons j0 l0 =>
          have hpj : printJson (.arr (j0 :: l0)) =
              '[' :: (printJsonList (j0 :: l0) ++ [']']) := rfl
          have hful : lfuel (j0 :: l0) ≤ fuel := by
            have heq : jfuel (.arr (j0 :: l0)) = 1 + lfuel (j0 :: l0) := rfl
            omega
          obtain ⟨c, cs, hpc, hne1, _⟩ := printJson_head_ne j0
          obtain ⟨tail, htail⟩ := printJsonList_cons j0 l0
          have hcons : printJsonList (j0 :: l0) ++ ']' :: rest =
              c :: (cs ++ (tail ++ ']' :: rest)) := by
            rw [htail, hpc]
            simp
          rw [hpj, List.cons_append, List.append_assoc]
          have hsingle : ([']'] ++ rest) = ']' :: rest := rfl
          rw [hsingle, hcons, parseVal_arr]
          simp only [hne1, if_false, reduceCtorEq, ite_false]
          rw [← hcons, ihE (j0 :: l0) rest (by simp) hful]
      | obj fs =>
        cases fs with
        | nil =>
          have hpj : printJson (.obj []) = openBrace :: closeBrace :: [] := rfl
          rw [hpj, List.cons_append, List.cons_append, List.nil_append, parseVal_obj]
          simp
        | cons kv fs0 =>
          obtain ⟨k, v⟩ := kv
          have hpj : printJson (.obj ((k, v) :: fs0)) =
              openBrace :: (printFields ((k, v) :: fs0) ++ [closeBrace]) := rfl
          have hffu : ffuel ((k, v) :: fs0) ≤ fuel := by
            have heq : jfuel (.obj ((k, v) :: fs0)) = 1 + ffuel ((k, v) :: fs0) := rfl
            omega
          obtain ⟨tail, htail⟩ := printFields_cons k v fs0
          have hcons : printFields ((k, v) :: fs0) ++ closeBrace :: rest =
              '"' :: ((escapeList k.data ++ ['"']) ++
                (':' :: (printJson v ++ tail)) ++ closeBrace :: rest) := by
            rw [htail, printString]
            simp
          rw [hpj, List.cons_append, List.append_assoc]
          have hsingle : ([closeBrace] ++ rest) = closeBrace :: rest := rfl
          rw [hsingle, hcons, parseVal_obj]
          simp only [if_neg (show ('"' : Char) ≠ closeBrace from by decide)]
          rw [← hcons, ihF ((k, v) :: fs0) rest (by simp) hffu]
    · -- parseElems on a printed nonempty element list
      intro l rest hne hf
      cases l with
      | nil => exact absurd rfl hne
      | cons j0 l0 =>
        have hmax1 := le_max_left (jfuel j0) (lfuel l0)
        have hmax2 := le_max_right (jfuel j0) (lfuel l0)
        have hlf : lfuel (j0 :: l0) = 1 + max (jfuel j0) (lfuel l0) := rfl
        have hj0 : jfuel j0 ≤ fuel := by omega
        cases l0 with
        | nil =>
          have hpl : printJsonList [j0] = printJson j0 := rfl
          rw [hpl]
          simp [parseElems, ihV j0 (']' :: rest) hj0 (notDigitStart_cons _ _ (by decide))]
        | cons j1 l1 =>
          have hl1 : lfuel (j1 :: l1) ≤ fuel := by
            have heq : lfuel (j0 :: j1 :: l1) = 1 + max (jfuel j0) (lfuel (j1 :: l1)) := rfl
            have := le_max_right (jfuel j0) (lfuel (j1 :: l1))
            omega
          have hpl : printJsonList (j0 :: j1 :: l1) =
              printJson j0 ++ ',' :: printJsonList (j1 :: l1) := rfl
          rw [hpl, List.append_assoc, List.cons_append]
          simp [parseElems,
            ihV j0 (',' :: (printJsonList (j1 :: l1) ++ ']' :: rest)) hj0
              (notDigitStart_cons _ _ (by decide)),
            ihE (j1 :: l1) rest (by simp) hl1]
    · -- parseFields on a printed nonempty field list
      intro fs rest hne hf
      cases fs with
      | nil => exact absurd rfl hne
      | cons kv fs0 =>
        obtain ⟨k, v⟩ := kv
        have hmax1 := le_max_left (jfuel v) (ffuel fs0)
        have hmax2 := le_max_right (jfuel v) (ffuel fs0)
        have hff : ffuel ((k, v) :: fs0) = 1 + max (jfuel v) (ffuel fs0) := rfl
        have hjv : jfuel v ≤ fuel := by omega
        cases fs0 with
        | nil =>
          have hpf : printFields [(k, v)] = printString k ++ ':' :: printJson v := rfl
          have hc1 : closeBrace ≠ ',' := by decide
          rw [hpf, printString, List.cons_append]
          simp [parseFields, parseStringChars_escape,
            ihV v (closeBrace :: rest) hjv (notDigitStart_cons _ _ (by decide)),
            hc1, stringMk_data]
        | cons kv2 fs1 =>
          have hff1 : ffuel (kv2 :: fs1) ≤ fuel := by
            have heq : ffuel ((k, v) :: kv2 :: fs1) =
                1 + max (jfuel v) (ffuel (kv2 :: fs1)) := rfl
            have := le_max_right (jfuel v) (ffuel (kv2 :: fs1))
            omega
          have hpf : printFields ((k, v) :: kv2 :: fs1) =
              printString k ++ ':' :: printJson v ++ ',' :: printFields (kv2 :: fs1) := rfl
          rw [hpf, printString, List.cons_append]
          simp [parseFields, parseStringChars_escape,
            ihV v (',' :: (printFields (kv2 :: fs1) ++ closeBrace :: rest)) hjv
              (notDigitStart_cons _ _ (by decide)),
            ihF (kv2 :: fs1) rest (by simp) hff1, stringMk_data]

mutual

/-- The printed form is at least as long as the fuel a value needs. -/
theorem jfuel_le_print : ∀ j : Json, jfuel j ≤ (printJson j).length + 1
  | .null => by simp [jfuel]
  | .bool b => by simp [jfuel]
  | .num n => by simp [jfuel]
  | .str s => by simp [jfuel]
  | .arr l => by
      have h := lfuel_le_print l
      have heq : jfuel (.arr l) = 1 + lfuel l := rfl
      have hp : printJson (.arr l) = '[' :: (printJsonList l ++ [']']) := rfl
      rw [heq, hp]
      simp only [List.length_cons, List.length_append, List.length_singleton]
      omega
  | .obj fs => by
      have h := ffuel_le_print fs
      have heq : jfuel (.obj fs) = 1 + ffuel fs := rfl
      have hp : printJson (.obj fs) = openBrace :: (printFields fs ++ [closeBrace]) := rfl
      rw [heq, hp]
      simp only [List.length_cons, List.length_append, List.length_singleton]
      omega

theorem lfuel_le_print : ∀ l : List Json, lfuel l ≤ (printJsonList l).length + 2
  | [] => by simp [lfuel]
  | [j] => by
      have h := jfuel_le_print j
      have heq : lfuel [j] = 1 + max (jfuel j) (lfuel []) := rfl
      have hp : printJsonList [j] = printJson j := rfl
      have h0 : lfuel ([] : List Json) = 1 := rfl
      have hm : max (jfuel j) (lfuel []) ≤ (printJson j).length + 1 :=
        max_le h (by omega)
      rw [heq, hp]
      omega
  | j :: j2 :: l2 => by
      have h1 := jfuel_le_print j
      have h2 := lfuel_le_print (j2 :: l2)
      have heq : lfuel (j :: j2 :: l2) = 1 + max (jfuel j) (lfuel (j2 :: l2)) := rfl
      have hp : printJsonList (j :: j2 :: l2) =
          printJson j ++ ',' :: printJsonList (j2 :: l2) := rfl
      have hm : max (jfuel j) (lfuel (j2 :: l2)) ≤
          (printJson j).length + (printJsonList (j2 :: l2)).length + 2 :=
        max_le (by omega) (by omega)
      rw [heq, hp]
      simp only [List.length_append, List.length_cons]
      omega

theorem ffuel_le_print : ∀ fs : List (String × Json), ffuel fs ≤ (printFields fs).length + 2
  | [] => by simp [ffuel]
  | [(k, v)] => by
      have h := jfuel_le_print v
      have heq : ffuel [(k, v)] = 1 + max (jfuel v) (ffuel []) := rfl
      have hp : printFields [(k, v)] = printString k ++ ':' :: printJson v := rfl
      have h0 : ffuel ([] : List (String × Json)) = 1 := rfl
      have hm : max (jfuel v) (ffuel []) ≤ (printJson v).length + 1 :=
        max_le h (by omega)
      rw [heq, hp]
      simp only [List.length_append, List.length_cons]
      omega
  | (k, v) :: kv2 :: fs1 => by
      have h1 := jfuel_le_print v
      have h2 := ffuel_le_print (kv2 :: fs1)
      have heq : ffuel ((k, v) :: kv2 :: fs1) =
          1 + max (jfuel v) (ffuel (kv2 :: fs1)) := rfl
      have hp : printFields ((k, v) :: kv2 :: fs1) =
          printString k ++ ':' :: printJson v ++ ',' :: printFields (kv2 :: fs1) := rfl
      have hm : max (jfuel v) (ffuel (kv2 :: fs1)) ≤
          (printJson v).length + (printFields (kv2 :: fs1)).length + 2 :=
        max_le (by omega) (by omega)
      rw [heq, hp]
      simp only [List.length_append, List.length_cons]
      omega

end

/-- Parsing a printed value back, with the whole-string entry point. -/
theorem parse_printJson (j : Json) :
    parseJson (String.mk (printJson j)) = some j := by
  unfold parseJson
  have hdata : (String.mk (printJson j)).data = printJson j := rfl
  rw [hdata]
  have h := (parse_print_aux ((printJson j).length + 1)).1 j []
    (by have := jfuel_le_print j; omega) trivial
  rw [List.append_nil] at h
  rw [h]

/-! ## Shape decode/encode round trip -/

theorem decodeNums_map (pts : List Int) : decodeNums (pts.map Json.num) = some pts := by
  induction pts with
  | nil => rfl
  | cons p ps ih => simp [decodeNums, ih]

theorem decodeShape_encodeShape (s : Shape) : decodeShape (encodeShape s) = some s := by
  obtain ⟨id, x, y, stroke, strokeWidth, fill, data⟩ := s
  cases data with
  | mindmapNode w h tx pid ir co =>
    cases pid <;> cases fill <;>
      simp [decodeShape, encodeShape, getField, dataFields, fillField, typeName,
        asStr, asNum, asBool, asNums, List.lookup, decodeNums_map]
  | rectangle w h =>
    cases fill <;>
      simp [decodeShape, encodeShape, getField, dataFields, fillField, typeName,
        asStr, asNum, asBool, asNums, List.lookup, decodeNums_map]
  | circle r =>
    cases fill <;>
      simp [decodeShape, encodeShape, getField, dataFields, fillField, typeName,
        asStr, asNum, asBool, asNums, List.lookup, decodeNums_map]
  | line pts =>
    cases fill <;>
      simp [decodeShape, encodeShape, getField, dataFields, fillField, typeName,
        asStr, asNum, asBool, asNums, List.lookup, decodeNums_map]
  | freehand pts =>
    cases fill <;>
      simp [decodeShape, encodeShape, getField, dataFields, fillField, typeName,
        asStr, asNum, asBool, asNums, List.lookup, decodeNums_map]
  | text tx fsz =>
    cases fill <;>
      simp [decodeShape, encodeShape, getField, dataFields, fillField, typeName,
        asStr, asNum, asBool, asNums, List.lookup, decodeNums_map]
  | sticky w h tx ci =>
    cases fill <;>
      simp [decodeShape, encodeShape, getField, dataFields, fillField, typeName,
        asStr, asNum, asBool, asNums, List.lookup, decodeNums_map]
  | noteEmbed w h nid nt np =>
    cases fill <;>
      simp [decodeShape, encodeShape, getField, dataFields, fillField, typeName,
        asStr, asNum, asBool, asNums, List.lookup, decodeNums_map]
  | connector f t pts =>
    cases fill <;>
      simp [decodeShape, encodeShape, getField, dataFields, fillField, typeName,
        asStr, asNum, asBool, asNums, List.lookup, decodeNums_map]

theorem decodeShapes_map (S : Scene) : decodeShapes (S.map encodeShape) = some S := by
  induction S with
  | nil => rfl
  | cons s rest ih => simp [decodeShapes, decodeShape_encodeShape, ih]

/-! ## C4: serialization round trip -/

/-- C4: for every scene `S`, deserializing the serialized document
string of `\x7bshapes: S\x7d` yields exactly `S`: serialization followed
by deserialization is the identity on scenes. -/
theorem serialize_roundtrip (S : Scene) :
    deserializeScene (serializeScene S) = some S := by
  unfold deserializeScene serializeScene
  rw [parse_printJson]
  simp [getField, List.lookup, decodeShapes_map]

/-! ## C8: debounce coalescing -/

theorem processBurst_pending (edits : List Scene) (hne : edits ≠ []) (st : SaveState) :
    (processBurst st edits).pending = some (edits.getLast hne) := by
  induction edits generalizing st with
  | nil => exact absurd rfl hne
  | cons e rest ih =>
    cases rest with
    | nil => simp [processBurst, scheduleSave]
    | cons e2 rest2 =>
      have h2 : (e2 :: rest2 : List Scene) ≠ [] := by simp
      have hstep : processBurst st (e :: e2 :: rest2) =
          processBurst (scheduleSave st e) (e2 :: rest2) := rfl
      rw [hstep, ih h2, List.getLast_cons h2]

theorem processBurst_frame (edits : List Scene) (st : SaveState) :
    (processBurst st edits).saves = st.saves ∧
    (processBurst st edits).lastSaved = st.lastSaved ∧
    (processBurst st edits).isLoading = st.isLoading := by
  induction edits generalizing st with
  | nil => exact ⟨rfl, rfl, rfl⟩
  | cons e rest ih => exact ih (scheduleSave st e)

/-- C8: for a burst of `N ≥ 1` edits each scheduled within the debounce
window of the previous one, the single timer that finally fires carries
the scene of the final edit; exactly one save is issued with its
serialization when that differs from the last persisted content, and
the save is skipped entirely when it is byte-identical. -/
theorem debounce_coalesces (st : SaveState) (edits : List Scene) (hne : edits ≠ [])
    (hload : st.isLoading = false) :
    (fireTimer (processBurst st edits)).pending = none ∧
    (serializeScene (edits.getLast hne) ≠ st.lastSaved →
      (fireTimer (processBurst st edits)).saves =
        st.saves ++ [serializeScene (edits.getLast hne)] ∧
      (fireTimer (processBurst st edits)).lastSaved =
        serializeScene (edits.getLast hne)) ∧
    (serializeScene (edits.getLast hne) = st.lastSaved →
      (fireTimer (processBurst st edits)).saves = st.saves) := by
  obtain ⟨hs, hl, hld⟩ := processBurst_frame edits st
  have hp := processBurst_pending edits hne st
  unfold fireTimer
  rw [hp]
  simp only
  by_cases hdiff : serializeScene (edits.getLast hne) = st.lastSaved
  · rw [if_neg (by rw [hl]; rintro ⟨h1, _⟩; exact h1 hdiff)]
    exact ⟨rfl, fun hc => absurd hdiff hc, fun _ => hs⟩
  · rw [if_pos ⟨by rw [hl]; exact hdiff, by rw [hld]; exact hload⟩]
    refine ⟨rfl, fun _ => ⟨by simp [hs], rfl⟩, fun heq => absurd heq hdiff⟩

/-- Witness for C8 at a concrete input: a burst of two edits (empty
scene, then one rectangle). -/
theorem debounce_coalesces_witness :
    (([[], [rA]] : List Scene) ≠ [] ∧ exSaveState.isLoading = false) ∧
    ((fireTimer (processBurst exSaveState [[], [rA]])).pending = none ∧
      (serializeScene (([[], [rA]] : List Scene).getLast (by simp)) ≠ exSaveState.lastSaved →
        (fireTimer (processBurst exSaveState [[], [rA]])).saves =
          exSaveState.saves ++
            [serializeScene (([[], [rA]] : List Scene).getLast (by simp))] ∧
        (fireTimer (processBurst exSaveState [[], [rA]])).lastSaved =
          serializeScene (([[], [rA]] : List Scene).getLast (by simp))) ∧
      (serializeScene (([[], [rA]] : List Scene).getLast (by simp)) = exSaveState.lastSaved →
        (fireTimer (processBurst exSaveState [[], [rA]])).saves = exSaveState.saves)) :=
  ⟨⟨by simp, rfl⟩, debounce_coalesces exSaveState [[], [rA]] (by simp) rfl⟩

/-! ## C9: malformed persisted content is recovered locally -/

/-- C9: loading never fails fatally.  When the stored content is
malformed (unparseable), the scene substituted is the empty one; when
it parses but the `shapes` field is missing or not an array, the scene
likewise stays the empty array; in every case loading yields a
well-defined scene (the `shapes` array or the empty array). -/
theorem load_malformed_safe :
    (∀ content : String, content ≠ "" → parseJson content = none →
      loadShapes content = []) ∧
    (∀ (content : String) (doc : Json),
      parseJson (if content = "" then defaultContent else content) = some doc →
      (∀ l, getField doc "shapes" ≠ some (Json.arr l)) →
      loadShapes content = []) ∧
    (∀ content : String, loadShapes content = [] ∨
      ∃ doc l, parseJson (if content = "" then defaultContent else content) = some doc ∧
        getField doc "shapes" = some (Json.arr l) ∧ loadShapes content = l) ∧
    (parseJson "not json" = none ∧ loadShapes "not json" = []) := by
  refine ⟨?_, ?_, ?_, ⟨rfl, rfl⟩⟩
  · intro content hne hparse
    unfold loadShapes
    rw [if_neg hne, hparse]
  · intro content doc hparse hno
    unfold loadShapes
    cases hg : getField doc "shapes" with
    | none => simp only [hparse, hg]
    | some j =>
      cases j with
      | arr l => exact absurd hg (hno l)
      | null => simp only [hparse, hg]
      | bool b => simp only [hparse, hg]
      | num n => simp only [hparse, hg]
      | str s2 => simp only [hparse, hg]
      | obj fs2 => simp only [hparse, hg]
  · intro content
    cases hparse : parseJson (if content = "" then defaultContent else content) with
    | none =>
      left
      unfold loadShapes
      simp only [hparse]
    | some doc =>
      cases hg : getField doc "shapes" with
      | none =>
        left
        unfold loadShapes
        simp only [hparse, hg]
      | some j =>
        cases j with
        | arr l =>
          right
          refine ⟨doc, l, rfl, hg, ?_⟩
          unfold loadShapes
          simp only [hparse, hg]
        | null => left; unfold loadShapes; simp only [hparse, hg]
        | bool b => left; unfold loadShapes; simp only [hparse, hg]
        | num n => left; unfold loadShapes; simp only [hparse, hg]
        | str s2 => left; unfold loadShapes; simp only [hparse, hg]
        | obj fs2 => left; unfold loadShapes; simp only [hparse, hg]

end CanvasEditor
